import Mathlib

/-!
Verification of the envoy-wasm-error-pages filter: a shallow embedding of
the Go sources (the `errorpages` template engine in both of its variants,
the `config` parser, and the `main.go` response interceptor) over
`List Char`, together with theorems settling the frozen claims.

Go strings are modelled as `List Char`; the `go...` helpers below embed the
`strings` standard-library functions the sources use.
-/

namespace ErrPages

/-- The whitespace class of Go's `unicode.IsSpace`, used by `strings.TrimSpace`. -/
def goIsSpace (c : Char) : Bool :=
  c == ' ' || c == '\t' || c == '\n' || c == '\x0b' || c == '\x0c' || c == '\r' ||
  c == '\u0085' || c == '\u00A0' || c == '\u1680' ||
  ('\u2000' ≤ c && c ≤ '\u200A') || c == '\u2028' || c == '\u2029' ||
  c == '\u202F' || c == '\u205F' || c == '\u3000'

/-- Left half of Go `strings.TrimSpace`. -/
def goTrimLeft (s : List Char) : List Char := s.dropWhile goIsSpace

/-- Right half of Go `strings.TrimSpace`. -/
def goTrimRight (s : List Char) : List Char := (s.reverse.dropWhile goIsSpace).reverse

/-- Go `strings.TrimSpace`. -/
def goTrimSpace (s : List Char) : List Char := goTrimRight (goTrimLeft s)

/-- Go `strings.TrimLeft` with an explicit cutset. -/
def goTrimLeftCut (cut : List Char) (s : List Char) : List Char :=
  s.dropWhile (fun c => cut.contains c)

/-- Go `strings.TrimRight` with an explicit cutset. -/
def goTrimRightCut (cut : List Char) (s : List Char) : List Char :=
  (s.reverse.dropWhile (fun c => cut.contains c)).reverse

/-- Go `strings.Trim` with an explicit cutset. -/
def goTrimCut (cut : List Char) (s : List Char) : List Char :=
  goTrimRightCut cut (goTrimLeftCut cut s)

/-- Go `strings.TrimPrefix pre s`: drop `pre` from the front when present. -/
def goDropStart (pre s : List Char) : List Char :=
  if List.isPrefixOf pre s then s.drop pre.length else s

/-- Go `strings.TrimSuffix suf s`: drop `suf` from the back when present. -/
def goDropEnd (suf s : List Char) : List Char :=
  if List.isSuffixOf suf s then s.take (s.length - suf.length) else s

/-- Go `strings.Index s pat`, with `none` for Go's `-1`. -/
def goIndex (pat : List Char) : List Char → Option Nat
  | [] => if List.isPrefixOf pat [] then some 0 else none
  | c :: t => if List.isPrefixOf pat (c :: t) then some 0 else (goIndex pat t).map (· + 1)

/-- Go `strings.Index` as the `Int` the source compares against `-1`. -/
def goIndexZ (pat s : List Char) : Int :=
  match goIndex pat s with
  | none => -1
  | some i => (i : Int)

/-- Go `strings.Contains s pat`. -/
def goContains (s pat : List Char) : Bool := (goIndex pat s).isSome

/-- Go slice `s[a:b]`. -/
def goSlice (s : List Char) (a b : Nat) : List Char := (s.drop a).take (b - a)

/-- Go `strings.ReplaceAll s pat rep`, leftmost non-overlapping occurrences;
structural recursion on a fuel that the wrapper sets above the string
length, which every recursive call decreases by at least one. -/
def goReplaceAllFuel (pat rep : List Char) : Nat → List Char → List Char
  | 0, s => s
  | _ + 1, [] => if pat.isEmpty then rep else []
  | fuel + 1, c :: t =>
    if pat.isEmpty then
      rep ++ c :: goReplaceAllFuel pat rep fuel t
    else if List.isPrefixOf pat (c :: t) then
      rep ++ goReplaceAllFuel pat rep fuel (List.drop (pat.length - 1) t)
    else
      c :: goReplaceAllFuel pat rep fuel t

/-- Go `strings.ReplaceAll s pat rep` at its natural fuel. -/
def goReplaceAll (pat rep s : List Char) : List Char :=
  goReplaceAllFuel pat rep (s.length + 1) s

/-- Go `strings.Split s sep` for a one-character separator. -/
def goSplit (sep : Char) : List Char → List (List Char)
  | [] => [[]]
  | c :: t =>
    if c = sep then [] :: goSplit sep t
    else
      match goSplit sep t with
      | [] => [[c]]
      | h :: r => (c :: h) :: r

/-- Go `strings.Join parts sep` for a one-character separator. -/
def goJoin (sep : Char) : List (List Char) → List Char
  | [] => []
  | [x] => x
  | x :: y :: r => x ++ sep :: goJoin sep (y :: r)

/-- Go `strconv.Itoa` / `strconv.FormatInt _ 10`. -/
def intDec (i : Int) : List Char :=
  if i < 0 then '-' :: Nat.toDigits 10 (-i).toNat else Nat.toDigits 10 i.toNat

/-- Wrap-around of Go's 64-bit `int` arithmetic. -/
def wrap64 (n : Int) : Int := (n + 2 ^ 63) % 2 ^ 64 - 2 ^ 63

end ErrPages

namespace ErrPages

/-- `TemplateData` of the `errorpages` package: all data usable in templates. -/
structure TemplateData where
  Code : Int
  Message : List Char
  Description : List Char
  ShowDetails : Bool
  Host : List Char
  OriginalURI : List Char
  ForwardedFor : List Char
  RequestID : List Char
  NowUnix : Int
  L10nEnabled : Bool
  L10nScript : List Char
deriving DecidableEq

/-- `IsErrorStatus`: is the status text a 4xx or 5xx code. -/
def IsErrorStatus (status : List Char) : Bool :=
  if status.length != 3 then false
  else
    match status with
    | [] => false
    | c :: _ => c == '4' || c == '5'

/-- The ordered replacement table of `htmlEscape`. -/
def htmlEscapePairs : List (List Char × List Char) :=
  [(['&'], "&amp;".data), (['<'], "&lt;".data), (['>'], "&gt;".data),
   (['"'], "&quot;".data), (['\''], "&#39;".data)]

/-- `htmlEscape`: escape HTML special characters, in the table's order. -/
def htmlEscape (s : List Char) : List Char :=
  htmlEscapePairs.foldl (fun acc pr => goReplaceAll pr.1 pr.2 acc) s

/-- The `messages` table of `getStatusMessage`. -/
def messagesList : List (Int × List Char) :=
  [(400, "Bad Request".data),
   (401, "Unauthorized".data),
   (402, "Payment Required".data),
   (403, "Forbidden".data),
   (404, "Not Found".data),
   (405, "Method Not Allowed".data),
   (406, "Not Acceptable".data),
   (407, "Proxy Authentication Required".data),
   (408, "Request Timeout".data),
   (409, "Conflict".data),
   (410, "Gone".data),
   (411, "Length Required".data),
   (412, "Precondition Failed".data),
   (413, "Payload Too Large".data),
   (414, "URI Too Long".data),
   (415, "Unsupported Media Type".data),
   (416, "Range Not Satisfiable".data),
   (417, "Expectation Failed".data),
   (418, "I'm a teapot".data),
   (421, "Misdirected Request".data),
   (422, "Unprocessable Entity".data),
   (423, "Locked".data),
   (424, "Failed Dependency".data),
   (425, "Too Early".data),
   (426, "Upgrade Required".data),
   (428, "Precondition Required".data),
   (429, "Too Many Requests".data),
   (431, "Request Header Fields Too Large".data),
   (451, "Unavailable For Legal Reasons".data),
   (500, "Internal Server Error".data),
   (501, "Not Implemented".data),
   (502, "Bad Gateway".data),
   (503, "Service Unavailable".data),
   (504, "Gateway Timeout".data),
   (505, "HTTP Version Not Supported".data),
   (506, "Variant Also Negotiates".data),
   (507, "Insufficient Storage".data),
   (508, "Loop Detected".data),
   (510, "Not Extended".data),
   (511, "Network Authentication Required".data)]

/-- `getStatusMessage`: table lookup with a per-class fallback. -/
def getStatusMessage (code : Int) : List Char :=
  match messagesList.find? (fun p => p.1 == code) with
  | some p => p.2
  | none => if 400 ≤ code ∧ code < 500 then "Client Error".data else "Server Error".data

/-- The `descriptions` table of `getStatusDescription`. -/
def descriptionsList : List (Int × List Char) :=
  [(400, "The request could not be understood by the server due to malformed syntax.".data),
   (401, "The request requires user authentication.".data),
   (403, "The server understood the request, but is refusing to fulfill it.".data),
   (404, "The requested resource could not be found.".data),
   (405, "The method specified in the request is not allowed for the resource.".data),
   (408, "The server timed out waiting for the request.".data),
   (429, "Too many requests have been sent in a given amount of time.".data),
   (500, "The server encountered an unexpected condition that prevented it from fulfilling the request.".data),
   (502, "The server received an invalid response from the upstream server.".data),
   (503, "The server is currently unable to handle the request due to temporary overloading or maintenance.".data),
   (504, "The server did not receive a timely response from the upstream server.".data)]

/-- `getStatusDescription`: table lookup with a generic per-class fallback. -/
def getStatusDescription (code : Int) : List Char :=
  match descriptionsList.find? (fun p => p.1 == code) with
  | some p => p.2
  | none =>
    if 400 ≤ code ∧ code < 500 then "An error occurred while processing your request.".data
    else "The server encountered an error while processing your request.".data

/-- The auto-refresh flag computed in `processConditionals`. -/
def shouldAutoRefresh (code : Int) : Bool :=
  code == 408 || code == 425 || code == 429 ||
  code == 500 || code == 502 || code == 503 || code == 504

/-- Opening marker of the auto-refresh conditional. -/
def refreshStart : List Char :=
  "<!-- {{ if or (eq code 408) (eq code 425) (eq code 429) (eq code 500) (eq code 502) (eq code 503) (eq code 504) }} -->".data

/-- Closing marker of the auto-refresh conditional. -/
def refreshEnd : List Char := "<!-- {{ end }} -->".data

/-- `processComplexRefreshConditional`: keep or drop the auto-refresh block. -/
def processComplexRefreshConditional (tmpl : List Char) (sh : Bool) : List Char :=
  match goIndex refreshStart tmpl with
  | none => tmpl
  | some startIdx =>
    match goIndex refreshEnd (tmpl.drop startIdx) with
    | none => tmpl
    | some rel =>
      let endIdx := rel + startIdx
      if sh then
        tmpl.take startIdx ++ goSlice tmpl (startIdx + refreshStart.length) endIdx ++
          tmpl.drop (endIdx + refreshEnd.length)
      else
        tmpl.take startIdx ++ tmpl.drop (endIdx + refreshEnd.length)

/-- The six comment-style marker pairs tried by `processIfBlock`. -/
def patternsFor (cond : List Char) : List (List Char × List Char) :=
  [("<!-- \x7b\x7b- if ".data ++ cond ++ " -\x7d\x7d -->".data, "<!-- {{- end -}} -->".data),
   ("<!-- \x7b\x7b if ".data ++ cond ++ " \x7d\x7d -->".data, "<!-- {{ end }} -->".data),
   ("<!-- \x7b\x7b- if ".data ++ cond ++ " \x7d\x7d -->".data, "<!-- {{ end }} -->".data),
   ("<!-- \x7b\x7b if ".data ++ cond ++ " -\x7d\x7d -->".data, "<!-- {{- end -}} -->".data),
   ("<!-- \x7b\x7bif ".data ++ cond ++ "\x7d\x7d -->".data, "<!-- {{end}} -->".data),
   ("<!-- \x7b\x7b- if ".data ++ cond ++ " -\x7d\x7d-->".data, "<!--{{- end -}}-->".data)]

/-- The nested-open marker the end-scan of `processIfBlock` counts. -/
def nestedOpenMark : List Char := "<!-- \x7b\x7b- if ".data

/-- The marker recognizing a chained `end`-then-`if` conditional. -/
def chainMark : List Char := "\x7b\x7b if ".data

/-- The end-marker scan of `processIfBlock` (its inner `for` loop): find the
matching end of a conditional block, counting nesting and skipping chained
`end`-then-`if` markers. The fuel argument only bounds the loop, which
advances by at least one character per iteration. -/
def scanEndFuel (result pend : List Char) : Nat → Nat → Nat → Option Nat
  | 0, _, _ => none
  | fuel + 1, searchPos, nestLevel =>
    if searchPos < result.length then
      let nextIfIdx := goIndexZ nestedOpenMark (result.drop searchPos)
      let nextEndIdx := goIndexZ pend (result.drop searchPos)
      if nextEndIdx ≠ -1 ∧ (nextIfIdx = -1 ∨ nextEndIdx < nextIfIdx) then
        let isChained :=
          if nextEndIdx > 0 then
            let checkPos := searchPos + nextEndIdx.toNat
            if checkPos + pend.length < result.length then
              List.isPrefixOf chainMark
                (goSlice result (checkPos + pend.length)
                  (min (checkPos + pend.length + 10) result.length))
            else false
          else false
        if ¬isChained ∧ nestLevel = 1 then
          some (searchPos + nextEndIdx.toNat)
        else
          scanEndFuel result pend fuel (searchPos + nextEndIdx.toNat + pend.length)
            (if isChained then nestLevel else nestLevel - 1)
      else if nextIfIdx ≠ -1 then
        scanEndFuel result pend fuel (searchPos + nextIfIdx.toNat + nestedOpenMark.length)
          (nestLevel + 1)
      else none
    else none

/-- The pattern loop of `processIfBlock`: the first marker pair whose start
occurs and whose end-scan succeeds, with start and end indices. -/
def firstMatch (tmpl : List Char) : List (List Char × List Char) →
    Option ((List Char × List Char) × Nat × Nat)
  | [] => none
  | p :: rest =>
    match goIndex p.1 tmpl with
    | none => firstMatch tmpl rest
    | some startIdx =>
      match scanEndFuel tmpl p.2 (tmpl.length + 1) (startIdx + p.1.length) 1 with
      | none => firstMatch tmpl rest
      | some endIdx => some (p, startIdx, endIdx)

/-- `processIfBlock`: resolve every block of one named conditional. The Go
function recurses on the rewritten template; each rewrite removes at least
the marker text, so template length bounds the recursion and is the fuel. -/
def processIfBlockFuel : Nat → List Char → List Char → Bool → List Char
  | 0, tmpl, _, _ => tmpl
  | fuel + 1, tmpl, cond, sh =>
    match firstMatch tmpl (patternsFor cond) with
    | none => tmpl
    | some (p, startIdx, endIdx) =>
      let result :=
        if sh then
          tmpl.take startIdx ++ goSlice tmpl (startIdx + p.1.length) endIdx ++
            tmpl.drop (endIdx + p.2.length)
        else
          tmpl.take startIdx ++ tmpl.drop (endIdx + p.2.length)
      processIfBlockFuel fuel result cond sh

/-- `processIfBlock` at its natural fuel. -/
def processIfBlock (tmpl cond : List Char) (sh : Bool) : List Char :=
  processIfBlockFuel (tmpl.length + 1) tmpl cond sh

/-- `processConditionals`: auto-refresh first, then `show_details`, then
`l10n_enabled`. -/
def processConditionals (tmpl : List Char) (data : TemplateData) : List Char :=
  let r1 := processComplexRefreshConditional tmpl (shouldAutoRefresh data.Code)
  let r2 := processIfBlock r1 "show_details".data data.ShowDetails
  processIfBlock r2 "l10n_enabled".data data.L10nEnabled

/-- The `replacements` map of `renderTemplate`, as the association list the
source writes (Go iterates this map in an unspecified order; theorems that
depend on the order quantify over reorderings). -/
def replacements (data : TemplateData) : List (List Char × List Char) :=
  [("{{ code }}".data, intDec data.Code),
   ("{{ message }}".data, data.Message),
   ("{{ description }}".data, data.Description),
   ("{{ message | escape }}".data, htmlEscape data.Message),
   ("{{ description | escape }}".data, htmlEscape data.Description),
   ("{{ host }}".data, data.Host),
   ("{{ original_uri }}".data, data.OriginalURI),
   ("{{ forwarded_for }}".data, data.ForwardedFor),
   ("{{ request_id }}".data, data.RequestID),
   ("{{ nowUnix }}".data, intDec data.NowUnix),
   ("{{ l10nScript }}".data, data.L10nScript)]

/-- The `for placeholder, value := range replacements` loop body. -/
def applyReplacements (rs : List (List Char × List Char)) (s : List Char) : List Char :=
  rs.foldl (fun acc pr => goReplaceAll pr.1 pr.2 acc) s

/-- `renderTemplate`, with the map-iteration order exposed as a reordering
of the association list. -/
def renderTemplateWith (reorder : List (List Char × List Char) → List (List Char × List Char))
    (tmpl : List Char) (data : TemplateData) : List Char :=
  applyReplacements (reorder (replacements data)) (processConditionals tmpl data)

/-- `renderTemplate` at the source-text order of the map literal. -/
def renderTemplate (tmpl : List Char) (data : TemplateData) : List Char :=
  renderTemplateWith id tmpl data

end ErrPages

namespace ErrPages

/-- The table-row open tag `cleanupEmptyRows` looks for. -/
def trOpenTag : List Char := "<tr>".data

/-- The table-row close tag `cleanupEmptyRows` looks for. -/
def trCloseTag : List Char := "</tr>".data

/-- The empty value cell `cleanupEmptyRows` looks for. -/
def emptyValueCell : List Char := "<td class=\"value\"></td>".data

/-- The leftover conditional markers `cleanupEmptyRows` removes, in source order. -/
def condMarkers : List (List Char) :=
  ["<!-- {{- if show_details -}} -->".data,
   "<!-- {{- if host -}} -->".data,
   "<!-- {{- end }}{{ if original_uri -}} -->".data,
   "<!-- {{- end }}{{ if forwarded_for -}} -->".data,
   "<!-- {{- end }}{{ if request_id -}} -->".data,
   "<!-- {{- end -}} -->".data,
   "<!-- {{- if l10n_enabled -}} -->".data]

/-- The look-ahead of `cleanupEmptyRows` over at most the next 4 lines:
does the row starting here have an empty value cell before its close tag. -/
def rowHasEmptyValueAux : Nat → List (List Char) → Bool
  | 0, _ => false
  | _, [] => false
  | k + 1, l :: rest =>
    let nextLine := goTrimSpace l
    if goContains nextLine emptyValueCell then true
    else if goContains nextLine trCloseTag then false
    else rowHasEmptyValueAux k rest

/-- The look-ahead window `j := i+1; j < len(lines) && j < i+5`. -/
def rowHasEmptyValue (rest : List (List Char)) : Bool := rowHasEmptyValueAux 4 rest

/-- The line loop of `cleanupEmptyRows`, with its `skipUntilEndTr` flag. -/
def cleanupLoop : Bool → List (List Char) → List (List Char)
  | _, [] => []
  | skip, l :: rest =>
    let line := goTrimSpace l
    if goContains line trOpenTag && rowHasEmptyValue rest then
      cleanupLoop true rest
    else if skip then
      if goContains line trCloseTag then cleanupLoop false rest else cleanupLoop true rest
    else
      l :: cleanupLoop skip rest

/-- `cleanupEmptyRows`: strip leftover conditional markers, then drop table
rows whose value cell rendered empty. -/
def cleanupEmptyRows (html : List Char) : List Char :=
  let r := condMarkers.foldl (fun acc m => goReplaceAll m [] acc) html
  goJoin '\n' (cleanupLoop false (goSplit '\n' r))

/-- `RenderErrorPage` of the string-replacement engine, with the ambient
clock (`time.Now().Unix()`) passed as `now` and the map-iteration order
exposed as `reorder`. The Go function returns a nil error on every path. -/
def RenderErrorPageWith
    (reorder : List (List Char × List Char) → List (List Char × List Char))
    (tmpl : List Char) (now : Int) (data : TemplateData) : List Char :=
  let d1 := if data.NowUnix == 0 then { data with NowUnix := now } else data
  let d2 := if d1.Message == [] then { d1 with Message := getStatusMessage d1.Code } else d1
  let d3 :=
    if d2.Description == [] then { d2 with Description := getStatusDescription d2.Code } else d2
  cleanupEmptyRows (renderTemplateWith reorder tmpl d3)

/-- `RenderErrorPage` at the source-text order of the replacement map. -/
def RenderErrorPage (tmpl : List Char) (now : Int) (data : TemplateData) : List Char :=
  RenderErrorPageWith id tmpl now data

end ErrPages

namespace ErrPages

/-- The Go-template action opener, `"{{"`. -/
def openTok : List Char := "\x7b\x7b".data

/-- The Go-template action closer, `"}}"`. -/
def closeTok : List Char := "\x7d\x7d".data

/-- The `controlKeywords` slice of the preprocessing engine. -/
def controlKeywords : List (List Char) :=
  ["if ".data, "else if ".data, "else".data, "end".data, "range ".data,
   "with ".data, "block ".data, "define ".data, "template ".data]

/-- `isControlKeyword`: the action equals a trimmed keyword or starts with one. -/
def isControlKeyword (action : List Char) : Bool :=
  controlKeywords.any (fun kw => action == goTrimSpace kw || List.isPrefixOf kw action)

/-- The scan loop of `containsOnlyDirectives`; consumes one `{{ ... }}`
action per iteration, so the remaining length bounds the loop (fuel). -/
def codLoopFuel : Nat → List Char → Bool → Bool
  | 0, _, _ => false
  | fuel + 1, remaining, found =>
    match goIndex openTok remaining with
    | none => found && (goTrimSpace remaining == [])
    | some idx =>
      if goTrimSpace (remaining.take idx) != [] then false
      else
        match goIndex closeTok (remaining.drop idx) with
        | none => false
        | some endIdx =>
          let action := goSlice remaining (idx + 2) (idx + endIdx)
          let action := goTrimSpace (goTrimCut ['-', ' '] action)
          if !isControlKeyword action then false
          else codLoopFuel fuel (remaining.drop (idx + endIdx + 2)) true

/-- `containsOnlyDirectives`: the string consists solely of control-keyword
actions with only whitespace between them. -/
def containsOnlyDirectives (s0 : List Char) : Bool :=
  let s := goTrimSpace s0
  if s == [] then false
  else codLoopFuel (s.length + 1) s false

/-- The `"{{-"` opener with a trim marker. -/
def openTrimTok : List Char := "\x7b\x7b-".data

/-- The `"-}}"` closer with a trim marker. -/
def closeTrimTok : List Char := "-\x7d\x7d".data

/-- `ensureOuterTrimMarkers`: force trim markers onto the outermost action
delimiters. -/
def ensureOuterTrimMarkers (s0 : List Char) : List Char :=
  let s1 :=
    if List.isPrefixOf openTok s0 && !List.isPrefixOf openTrimTok s0 then
      "\x7b\x7b- ".data ++ goTrimLeftCut [' '] (s0.drop 2)
    else s0
  if List.isSuffixOf closeTok s1 && !List.isSuffixOf closeTrimTok s1 then
    goTrimRightCut [' '] (s1.take (s1.length - 2)) ++ " -\x7d\x7d".data
  else s1

/-- The HTML comment opener of `preprocessTemplate`. -/
def htmlOpen : List Char := "<!--".data

/-- The HTML comment closer of `preprocessTemplate`. -/
def htmlClose : List Char := "-->".data

/-- The CSS comment opener of `preprocessTemplate`. -/
def cssOpen : List Char := "/*".data

/-- The CSS comment closer of `preprocessTemplate`. -/
def cssClose : List Char := "*/".data

/-- The JS line-comment marker of `preprocessTemplate`. -/
def jsMark : List Char := "//".data

/-- The triple-slash marker `preprocessTemplate` excludes. -/
def jsMark3 : List Char := "///".data

/-- The inner text of an HTML-comment-wrapped line. -/
def innerHtml (trimmed : List Char) : List Char :=
  goTrimSpace (goDropEnd htmlClose (goDropStart htmlOpen trimmed))

/-- The inner text of a CSS-comment-wrapped line. -/
def innerCss (trimmed : List Char) : List Char :=
  goTrimSpace (goDropEnd cssClose (goDropStart cssOpen trimmed))

/-- The inner text of a JS-line-comment line. -/
def innerJs (trimmed : List Char) : List Char :=
  goTrimSpace (goDropStart jsMark trimmed)

/-- The per-line body of `preprocessTemplate`: unwrap a comment skin when
the whole trimmed line is one comment whose inner text is only directives. -/
def processLine (line : List Char) : List Char :=
  let trimmed := goTrimSpace line
  if List.isPrefixOf htmlOpen trimmed && List.isSuffixOf htmlClose trimmed &&
      containsOnlyDirectives (innerHtml trimmed) then
    ensureOuterTrimMarkers (innerHtml trimmed)
  else if List.isPrefixOf cssOpen trimmed && List.isSuffixOf cssClose trimmed &&
      containsOnlyDirectives (innerCss trimmed) then
    ensureOuterTrimMarkers (innerCss trimmed)
  else if List.isPrefixOf jsMark trimmed && !List.isPrefixOf jsMark3 trimmed &&
      containsOnlyDirectives (innerJs trimmed) then
    ensureOuterTrimMarkers (innerJs trimmed)
  else line

/-- `preprocessTemplate`: line-by-line unwrapping of comment-disguised
directives. -/
def preprocessTemplate (raw : List Char) : List Char :=
  goJoin '\n' ((goSplit '\n' raw).map processLine)

/-- The plugin `Config` of the `config` package. -/
structure Config where
  Theme : List Char
  ShowDetails : Bool
deriving DecidableEq

/-- The `"theme:"` key of `config.Parse`. -/
def themeKey : List Char := "theme:".data

/-- The `"show_details:"` key of `config.Parse`. -/
def showDetailsKey : List Char := "show_details:".data

/-- The per-line body of `config.Parse`. -/
def parseConfigLine (cfg : Config) (rawLine : List Char) : Config :=
  let line := goTrimSpace rawLine
  if List.isPrefixOf "#".data line || line == [] then cfg
  else
    let cfg1 :=
      if List.isPrefixOf themeKey line then
        { cfg with Theme := goTrimSpace (goDropStart themeKey line) }
      else cfg
    if List.isPrefixOf showDetailsKey line then
      { cfg1 with ShowDetails := goTrimSpace (goDropStart showDetailsKey line) == "true".data }
    else cfg1

/-- `config.Parse`: defaults, then a line scan; the Go function returns a
nil error on its single return path, modelled by the constantly-`none`
second component. -/
def Parse (yamlContent : List Char) : Config × Option (List Char) :=
  ((goSplit '\n' yamlContent).foldl parseConfigLine
      { Theme := "cats".data, ShowDetails := true },
    none)

/-- The proxy-wasm action an HTTP event handler returns. -/
inductive Action where
  | Continue : Action
  | Pause : Action
deriving DecidableEq

/-- The per-request `httpContext` state of `main.go`. -/
structure HttpCtx where
  shouldReplaceBody : Bool
  statusCode : List Char
  host : List Char
  originalURI : List Char
  forwardedFor : List Char
  requestID : List Char
deriving DecidableEq

/-- The digit-by-digit status parse of `OnHttpResponseBody` (non-digits are
skipped; Go `int` arithmetic wraps at 64 bits). -/
def parseStatusInt (s : List Char) : Int :=
  s.foldl
    (fun acc c =>
      if '0' ≤ c && c ≤ '9' then wrap64 (acc * 10 + ((c.toNat - '0'.toNat : Nat) : Int))
      else acc)
    0

/-- The `TemplateData` literal `OnHttpResponseBody` builds at end of stream. -/
def bodyTemplateData (showDetails : Bool) (ctx : HttpCtx) : TemplateData :=
  { Code := parseStatusInt ctx.statusCode
    Message := []
    Description := []
    ShowDetails := showDetails
    Host := ctx.host
    OriginalURI := ctx.originalURI
    ForwardedFor := ctx.forwardedFor
    RequestID := ctx.requestID
    NowUnix := 0
    L10nEnabled := false
    L10nScript := [] }

/-- `OnHttpResponseBody` of `main.go`. Besides the returned action, the
second component records the bytes handed to `ReplaceHttpResponseBody`
(`none` when the body is left untouched). `showDetails` is the process-wide
`pluginConfig.ShowDetails`, `tmpl` the handler's template, `now` the
ambient clock read when rendering defaults the timestamp. -/
def OnHttpResponseBody (showDetails : Bool) (tmpl : List Char) (now : Int)
    (ctx : HttpCtx) (_bodySize : Nat) (endOfStream : Bool) : Action × Option (List Char) :=
  if !ctx.shouldReplaceBody then (Action.Continue, none)
  else if !endOfStream then (Action.Pause, none)
  else (Action.Continue, some (RenderErrorPage tmpl now (bodyTemplateData showDetails ctx)))

/-- `OnHttpResponseHeaders` of `main.go`: classify the response status
(`none` models a failed `:status` read) and mark interception. The header
mutations are host effects outside this model. -/
def OnHttpResponseHeaders (status : Option (List Char)) (ctx : HttpCtx) : Action × HttpCtx :=
  match status with
  | none => (Action.Continue, ctx)
  | some st =>
    if IsErrorStatus st then
      (Action.Continue, { ctx with shouldReplaceBody := true, statusCode := st })
    else (Action.Continue, ctx)

end ErrPages

namespace ErrPages

/-! ### Facts about the string helpers -/

theorem goIndex_eq_none_iff (pat : List Char) :
    ∀ s, goIndex pat s = none ↔ ¬ pat <:+: s := by
  intro s
  induction s with
  | nil =>
    cases pat with
    | nil => simp [goIndex]
    | cons a t => simp [goIndex]
  | cons c t ih =>
    by_cases hp : List.isPrefixOf pat (c :: t)
    · have : pat <:+: c :: t := (List.isPrefixOf_iff_prefix.mp hp).isInfix
      simp [goIndex, hp, this]
    · have hnp : ¬ pat <+: (c :: t) := fun h => hp (List.isPrefixOf_iff_prefix.mpr h)
      simp [goIndex, hp, ih, List.infix_cons_iff, hnp]

theorem goIndex_none_of_sub {pat pat2 s : List Char} (hsub : pat <:+: pat2)
    (h : goIndex pat s = none) : goIndex pat2 s = none := by
  rw [goIndex_eq_none_iff] at h ⊢
  exact fun h2 => h (hsub.trans h2)

theorem goIndex_none_of_inf {pat s t : List Char} (h : goIndex pat s = none)
    (hsub : t <:+: s) : goIndex pat t = none := by
  rw [goIndex_eq_none_iff] at h ⊢
  exact fun h2 => h (h2.trans hsub)

theorem goReplaceAllFuel_of_none {pat rep : List Char} :
    ∀ (fuel : Nat) {s : List Char}, goIndex pat s = none →
      goReplaceAllFuel pat rep fuel s = s := by
  intro fuel
  induction fuel with
  | zero => intro s _; rfl
  | succ n ih =>
    intro s h
    cases s with
    | nil =>
      have hne : pat.isEmpty = false := by
        cases pat with
        | nil => simp [goIndex] at h
        | cons a t => simp
      simp [goReplaceAllFuel, hne]
    | cons c t =>
      have hp : List.isPrefixOf pat (c :: t) = false := by
        by_contra hc
        rw [Bool.not_eq_false] at hc
        simp [goIndex, hc] at h
      have ht : goIndex pat t = none := by
        simpa [goIndex, hp] using h
      have hne : pat.isEmpty = false := by
        cases pat with
        | nil => simp [List.isPrefixOf] at hp
        | cons a t2 => simp
      simp [goReplaceAllFuel, hne, hp, ih ht]

theorem goReplaceAll_of_none {pat rep : List Char} {s : List Char}
    (h : goIndex pat s = none) : goReplaceAll pat rep s = s :=
  goReplaceAllFuel_of_none _ h

theorem mem_goReplaceAllFuel {pat rep : List Char} :
    ∀ (fuel : Nat) (s : List Char) (x : Char),
      x ∈ goReplaceAllFuel pat rep fuel s → x ∈ s ∨ x ∈ rep := by
  intro fuel
  induction fuel with
  | zero => intro s x hx; exact Or.inl hx
  | succ n ih =>
    intro s x hx
    cases s with
    | nil =>
      by_cases he : pat.isEmpty
      · simp [goReplaceAllFuel, he] at hx
        exact Or.inr hx
      · simp [goReplaceAllFuel, he] at hx
    | cons c t =>
      by_cases he : pat.isEmpty
      · rw [goReplaceAllFuel, if_pos he, List.mem_append] at hx
        rcases hx with hx | hx
        · exact Or.inr hx
        · rcases List.mem_cons.mp hx with hx | hx
          · exact Or.inl (hx ▸ List.mem_cons_self c t)
          · rcases ih t x hx with h2 | h2
            · exact Or.inl (List.mem_cons_of_mem c h2)
            · exact Or.inr h2
      · by_cases hp : List.isPrefixOf pat (c :: t)
        · rw [goReplaceAllFuel, if_neg (by simp [he]), if_pos hp, List.mem_append] at hx
          rcases hx with hx | hx
          · exact Or.inr hx
          · rcases ih _ x hx with h2 | h2
            · exact Or.inl (List.mem_cons_of_mem c (List.mem_of_mem_drop h2))
            · exact Or.inr h2
        · rw [goReplaceAllFuel, if_neg (by simp [he]), if_neg hp, List.mem_cons] at hx
          rcases hx with hx | hx
          · exact Or.inl (hx ▸ List.mem_cons_self c t)
          · rcases ih t x hx with h2 | h2
            · exact Or.inl (List.mem_cons_of_mem c h2)
            · exact Or.inr h2

theorem not_mem_goReplaceAll {pat rep : List Char} {s : List Char} {x : Char}
    (hs : x ∉ s) (hr : x ∉ rep) : x ∉ goReplaceAll pat rep s := by
  intro hx
  rcases mem_goReplaceAllFuel (s.length + 1) s x hx with h | h
  · exact hs h
  · exact hr h

theorem goReplaceAllFuel_single_not_mem {a : Char} {rep : List Char} (hrep : a ∉ rep) :
    ∀ (fuel : Nat) (s : List Char), s.length < fuel →
      a ∉ goReplaceAllFuel [a] rep fuel s := by
  intro fuel
  induction fuel with
  | zero => intro s hs; omega
  | succ n ih =>
    intro s hs
    cases s with
    | nil => simp [goReplaceAllFuel]
    | cons c t =>
      by_cases hc : a = c
      · subst hc
        have hp : List.isPrefixOf [a] (a :: t) = true := by simp [List.isPrefixOf]
        rw [goReplaceAllFuel, if_neg (by simp), if_pos hp]
        simp only [List.length_cons, List.length_nil, Nat.zero_add, Nat.sub_self,
          List.drop_zero]
        intro hx
        rcases List.mem_append.mp hx with h | h
        · exact hrep h
        · exact ih t (by simpa using Nat.lt_of_succ_lt_succ hs) h
      · have hp : List.isPrefixOf [a] (c :: t) = false := by
          simp [List.isPrefixOf]
          exact fun h => hc (by simpa using h)
        rw [goReplaceAllFuel, if_neg (by simp), if_neg (by simp [hp])]
        intro hx
        rcases List.mem_cons.mp hx with h | h
        · exact hc h
        · exact ih t (Nat.lt_of_succ_lt_succ hs) h

theorem goReplaceAll_single_not_mem {a : Char} {rep : List Char} (hrep : a ∉ rep)
    (s : List Char) : a ∉ goReplaceAll [a] rep s :=
  goReplaceAllFuel_single_not_mem hrep (s.length + 1) s (Nat.lt_succ_self _)

theorem goSplit_struct (sep : Char) :
    ∀ s : List Char, ∃ h r, goSplit sep s = h :: r ∧ h <+: s ∧ ∀ p ∈ r, p <:+: s := by
  intro s
  induction s with
  | nil => exact ⟨[], [], rfl, List.nil_prefix, by simp⟩
  | cons c t ih =>
    rcases ih with ⟨h, r, heq, hpre, hinf⟩
    by_cases hc : c = sep
    · subst hc
      refine ⟨[], goSplit c t, by simp [goSplit], List.nil_prefix, ?_⟩
      intro p hp
      rw [heq] at hp
      rcases List.mem_cons.mp hp with h1 | h1
      · exact h1 ▸ (hpre.isInfix.trans (List.infix_cons (List.infix_refl t)))
      · exact (hinf p h1).trans (List.infix_cons (List.infix_refl t))
    · refine ⟨c :: h, r, by simp [goSplit, hc, heq], ?_, ?_⟩
      · rcases hpre with ⟨u, hu⟩
        exact ⟨u, by rw [List.cons_append, hu]⟩
      · intro p hp
        exact (hinf p hp).trans (List.infix_cons (List.infix_refl t))

theorem goSplit_ne_nil (sep : Char) (s : List Char) : goSplit sep s ≠ [] := by
  rcases goSplit_struct sep s with ⟨h, r, heq, -, -⟩
  simp [heq]

theorem mem_goSplit_inf {sep : Char} {s p : List Char} (hp : p ∈ goSplit sep s) :
    p <:+: s := by
  rcases goSplit_struct sep s with ⟨h, r, heq, hpre, hinf⟩
  rw [heq] at hp
  rcases List.mem_cons.mp hp with h1 | h1
  · exact h1 ▸ hpre.isInfix
  · exact hinf p h1

theorem goJoin_goSplit (sep : Char) : ∀ s, goJoin sep (goSplit sep s) = s := by
  intro s
  induction s with
  | nil => rfl
  | cons c t ih =>
    by_cases hc : c = sep
    · obtain ⟨h, r, heq, -, -⟩ := goSplit_struct sep t
      rw [show goSplit sep (c :: t) = [] :: goSplit sep t from by simp [goSplit, hc], heq]
      show goJoin sep ([] :: h :: r) = c :: t
      rw [show goJoin sep ([] :: h :: r) = [] ++ sep :: goJoin sep (h :: r) from rfl]
      rw [List.nil_append, ← heq, ih, hc]
    · obtain ⟨h, r, heq, -, -⟩ := goSplit_struct sep t
      have hsplit : goSplit sep (c :: t) = (c :: h) :: r := by
        simp [goSplit, hc, heq]
      rw [hsplit]
      cases r with
      | nil =>
        have ht : h = t := by rw [heq] at ih; exact ih
        simp [goJoin, ht]
      | cons y r2 =>
        have ht : h ++ sep :: goJoin sep (y :: r2) = t := by
          rw [heq] at ih
          exact ih
        show (c :: h) ++ sep :: goJoin sep (y :: r2) = c :: t
        rw [List.cons_append, ht]

theorem goSplit_of_not_mem {sep : Char} : ∀ {s}, sep ∉ s → goSplit sep s = [s] := by
  intro s
  induction s with
  | nil => intro _; rfl
  | cons c t ih =>
    intro h
    have hc : ¬ c = sep := fun he => h (by rw [he]; exact List.mem_cons_self _ _)
    have ht : sep ∉ t := fun hm => h (List.mem_cons_of_mem c hm)
    simp [goSplit, hc, ih ht]

theorem goTrimLeft_sfx (s : List Char) : goTrimLeft s <:+ s := List.dropWhile_suffix _

theorem goTrimRight_pfx (s : List Char) : goTrimRight s <+: s := by
  have h1 : s.reverse.dropWhile goIsSpace <:+ s.reverse := List.dropWhile_suffix _
  have h2 : (s.reverse.dropWhile goIsSpace).reverse.reverse <:+ s.reverse := by
    rwa [List.reverse_reverse]
  exact List.reverse_suffix.mp h2

theorem goTrimSpace_inf (s : List Char) : goTrimSpace s <:+: s :=
  (goTrimRight_pfx (goTrimLeft s)).isInfix.trans (goTrimLeft_sfx s).isInfix

theorem goTrimLeftCut_sfx (cut s : List Char) : goTrimLeftCut cut s <:+ s :=
  List.dropWhile_suffix _

theorem goTrimRightCut_pfx (cut s : List Char) : goTrimRightCut cut s <+: s := by
  have h2 : (s.reverse.dropWhile (fun c => cut.contains c)).reverse.reverse <:+ s.reverse := by
    rw [List.reverse_reverse]
    exact List.dropWhile_suffix _
  exact List.reverse_suffix.mp h2

theorem goTrimCut_inf (cut s : List Char) : goTrimCut cut s <:+: s :=
  (goTrimRightCut_pfx cut (goTrimLeftCut cut s)).isInfix.trans
    (goTrimLeftCut_sfx cut s).isInfix

theorem goDropStart_inf (pre s : List Char) : goDropStart pre s <:+: s := by
  unfold goDropStart
  by_cases h : List.isPrefixOf pre s
  · simp only [h, if_true]
    exact (List.drop_suffix _ _).isInfix
  · simp only [h, if_false]
    exact List.infix_refl s

theorem goDropEnd_inf (suf s : List Char) : goDropEnd suf s <:+: s := by
  unfold goDropEnd
  by_cases h : List.isSuffixOf suf s
  · simp only [h, if_true]
    exact (List.take_prefix _ _).isInfix
  · simp only [h, if_false]
    exact List.infix_refl s

theorem goSlice_inf (s : List Char) (a b : Nat) : goSlice s a b <:+: s :=
  (List.take_prefix _ _).isInfix.trans (List.drop_suffix _ _).isInfix

theorem take_inf (s : List Char) (a : Nat) : s.take a <:+: s := (List.take_prefix _ _).isInfix

theorem drop_inf (s : List Char) (a : Nat) : s.drop a <:+: s := (List.drop_suffix _ _).isInfix

end ErrPages

namespace ErrPages

theorem inf_of_goIndex_isSome {pat s : List Char} (h : (goIndex pat s).isSome = true) :
    pat <:+: s := by
  by_contra hn
  rw [← goIndex_eq_none_iff] at hn
  rw [hn] at h
  simp at h

theorem processComplexRefresh_of_none {tmpl : List Char} {sh : Bool}
    (h : goIndex refreshStart tmpl = none) :
    processComplexRefreshConditional tmpl sh = tmpl := by
  unfold processComplexRefreshConditional
  rw [h]

theorem sub_head (A B cond : List Char) (h : openTok <:+: A) :
    openTok <:+: (A ++ cond ++ B) := by
  refine h.trans ?_
  have h2 : A <+: A ++ (cond ++ B) := List.prefix_append _ _
  rw [← List.append_assoc] at h2
  exact h2.isInfix

theorem openTok_sub_patterns (cond : List Char) :
    ∀ p ∈ patternsFor cond, openTok <:+: p.1 := by
  intro p hp
  simp only [patternsFor] at hp
  fin_cases hp <;> exact sub_head _ _ _ (inf_of_goIndex_isSome (by decide))

theorem firstMatch_of_none {tmpl : List Char} {pats : List (List Char × List Char)}
    (h : ∀ p ∈ pats, goIndex p.1 tmpl = none) : firstMatch tmpl pats = none := by
  induction pats with
  | nil => rfl
  | cons p rest ih =>
    simp only [firstMatch, h p (List.mem_cons_self _ _)]
    exact ih fun q hq => h q (List.mem_cons_of_mem _ hq)

theorem processIfBlock_of_none {tmpl cond : List Char} {sh : Bool}
    (h : firstMatch tmpl (patternsFor cond) = none) :
    processIfBlock tmpl cond sh = tmpl := by
  unfold processIfBlock
  simp only [processIfBlockFuel, h]

theorem processIfBlock_of_no_open {tmpl cond : List Char} {sh : Bool}
    (h : goIndex openTok tmpl = none) : processIfBlock tmpl cond sh = tmpl :=
  processIfBlock_of_none (firstMatch_of_none fun p hp =>
    goIndex_none_of_sub (openTok_sub_patterns cond p hp) h)

theorem processConditionals_of_no_open {tmpl : List Char} {data : TemplateData}
    (h : goIndex openTok tmpl = none) : processConditionals tmpl data = tmpl := by
  have h1 : goIndex refreshStart tmpl = none :=
    goIndex_none_of_sub (inf_of_goIndex_isSome (by decide)) h
  simp only [processConditionals]
  rw [processComplexRefresh_of_none h1, processIfBlock_of_no_open h,
    processIfBlock_of_no_open h]

theorem openTok_sub_replacements (data : TemplateData) :
    ∀ pr ∈ replacements data, openTok <:+: pr.1 := by
  intro pr hp
  have hm : pr.1 ∈ (replacements data).map Prod.fst := List.mem_map_of_mem _ hp
  simp only [replacements, List.map_cons, List.map_nil, List.mem_cons,
    List.mem_singleton] at hm
  rcases hm with h | h | h | h | h | h | h | h | h | h | h | h
  all_goals first
  | (rw [h]; exact inf_of_goIndex_isSome (by decide))
  | exact absurd h (List.not_mem_nil _)

theorem applyReplacements_of_none {rs : List (List Char × List Char)} {s : List Char}
    (h : ∀ pr ∈ rs, goIndex pr.1 s = none) : applyReplacements rs s = s := by
  induction rs with
  | nil => rfl
  | cons pr rest ih =>
    simp only [applyReplacements, List.foldl_cons]
    rw [goReplaceAll_of_none (h pr (List.mem_cons_self _ _))]
    exact ih fun q hq => h q (List.mem_cons_of_mem _ hq)

theorem renderTemplate_of_no_open {tmpl : List Char} {data : TemplateData}
    (h : goIndex openTok tmpl = none) : renderTemplate tmpl data = tmpl := by
  unfold renderTemplate renderTemplateWith
  rw [processConditionals_of_no_open h]
  simp only [id]
  exact applyReplacements_of_none fun pr hp =>
    goIndex_none_of_sub (openTok_sub_replacements data pr hp) h

theorem containsOnlyDirectives_of_none {inner : List Char}
    (hi : goIndex openTok inner = none) : containsOnlyDirectives inner = false := by
  unfold containsOnlyDirectives
  by_cases hz : goTrimSpace inner = []
  · simp [hz]
  · have hz' : (goTrimSpace inner == []) = false := by simpa using hz
    have hs : goIndex openTok (goTrimSpace inner) = none :=
      goIndex_none_of_inf hi (goTrimSpace_inf inner)
    simp [hz', codLoopFuel, hs]

theorem innerHtml_inf (trimmed : List Char) : innerHtml trimmed <:+: trimmed :=
  (goTrimSpace_inf _).trans ((goDropEnd_inf _ _).trans (goDropStart_inf _ _))

theorem innerCss_inf (trimmed : List Char) : innerCss trimmed <:+: trimmed :=
  (goTrimSpace_inf _).trans ((goDropEnd_inf _ _).trans (goDropStart_inf _ _))

theorem innerJs_inf (trimmed : List Char) : innerJs trimmed <:+: trimmed :=
  (goTrimSpace_inf _).trans (goDropStart_inf _ _)

theorem processLine_of_no_open {line : List Char} (h : goIndex openTok line = none) :
    processLine line = line := by
  have htr : goIndex openTok (goTrimSpace line) = none :=
    goIndex_none_of_inf h (goTrimSpace_inf line)
  have hH : containsOnlyDirectives (innerHtml (goTrimSpace line)) = false :=
    containsOnlyDirectives_of_none (goIndex_none_of_inf htr (innerHtml_inf _))
  have hC : containsOnlyDirectives (innerCss (goTrimSpace line)) = false :=
    containsOnlyDirectives_of_none (goIndex_none_of_inf htr (innerCss_inf _))
  have hJ : containsOnlyDirectives (innerJs (goTrimSpace line)) = false :=
    containsOnlyDirectives_of_none (goIndex_none_of_inf htr (innerJs_inf _))
  simp [processLine, hH, hC, hJ]

theorem map_self {α : Type} {f : α → α} :
    ∀ {l : List α}, (∀ x ∈ l, f x = x) → l.map f = l := by
  intro l
  induction l with
  | nil => intro _; rfl
  | cons a t ih =>
    intro h
    simp [h a (List.mem_cons_self _ _), ih fun x hx => h x (List.mem_cons_of_mem _ hx)]

theorem preprocessTemplate_of_no_open {doc : List Char}
    (h : goIndex openTok doc = none) : preprocessTemplate doc = doc := by
  unfold preprocessTemplate
  rw [map_self fun p hp =>
    processLine_of_no_open (goIndex_none_of_inf h (mem_goSplit_inf hp))]
  exact goJoin_goSplit '\n' doc

end ErrPages

namespace ErrPages

/-! ### Claim theorems -/

/-- C2: for every string `s`, `IsErrorStatus s` returns true if and only if
`s` has length exactly 3 and its first character is `'4'` or `'5'`. -/
theorem isErrorStatus_iff_c2 (s : List Char) :
    IsErrorStatus s = true ↔ s.length = 3 ∧ (s.head? = some '4' ∨ s.head? = some '5') := by
  cases s with
  | nil => simp [IsErrorStatus]
  | cons c t =>
    by_cases h3 : (c :: t).length = 3
    · have hb : ((c :: t).length != 3) = false := by simp [h3]
      simp [IsErrorStatus, hb, h3]
    · have hb : ((c :: t).length != 3) = true := by simpa [bne_iff_ne] using h3
      simp [IsErrorStatus, hb, h3]

/-- C5 counterexample: `"4ab"` does not consist of three decimal digits, yet
`IsErrorStatus` returns true on it (only length and first character are
inspected), so "for every non-numeric input string ... isErrorStatus
returns false" fails. -/
theorem isErrorStatus_c5_counterexample :
    IsErrorStatus "4ab".data = true ∧ "4ab".data.all Char.isDigit = false := by
  decide

/-- C5 (amended): for every string whose length is not 3, `IsErrorStatus`
returns false, and the function is total on malformed input; a length-3
string may return true even when not numeric, as only its first character
is inspected. -/
theorem isErrorStatus_wrong_length_c5 (s : List Char) (h : s.length ≠ 3) :
    IsErrorStatus s = false := by
  unfold IsErrorStatus
  have hb : (s.length != 3) = true := by simpa [bne_iff_ne] using h
  simp [hb]

/-- C5 witness: the amended theorem at the concrete input `"40"`. -/
theorem isErrorStatus_wrong_length_c5_witness :
    "40".data.length ≠ 3 ∧ IsErrorStatus "40".data = false :=
  ⟨by decide, isErrorStatus_wrong_length_c5 "40".data (by decide)⟩

/-- C4: `htmlEscape` escapes `&` before `<`, `>`, `"`, `'`, so no output of
it contains an unescaped `<`, `>`, `"` or `'`, and the ampersands that the
later rules introduce are never re-escaped (escaping `"<"` yields `"&lt;"`,
not `"&amp;lt;"`; a lone `"&"` yields exactly `"&amp;"`). -/
theorem htmlEscape_c4 (s : List Char) :
    '<' ∉ htmlEscape s ∧ '>' ∉ htmlEscape s ∧ '"' ∉ htmlEscape s ∧ '\'' ∉ htmlEscape s ∧
    htmlEscape ['<'] = "&lt;".data ∧ htmlEscape ['&'] = "&amp;".data := by
  have e : htmlEscape s =
      goReplaceAll ['\''] "&#39;".data
        (goReplaceAll ['"'] "&quot;".data
          (goReplaceAll ['>'] "&gt;".data
            (goReplaceAll ['<'] "&lt;".data
              (goReplaceAll ['&'] "&amp;".data s)))) := by
    simp [htmlEscape, htmlEscapePairs]
  refine ⟨?_, ?_, ?_, ?_, by decide, by decide⟩
  · rw [e]
    apply not_mem_goReplaceAll _ (by decide)
    apply not_mem_goReplaceAll _ (by decide)
    apply not_mem_goReplaceAll _ (by decide)
    exact goReplaceAll_single_not_mem (by decide) _
  · rw [e]
    apply not_mem_goReplaceAll _ (by decide)
    apply not_mem_goReplaceAll _ (by decide)
    exact goReplaceAll_single_not_mem (by decide) _
  · rw [e]
    apply not_mem_goReplaceAll _ (by decide)
    exact goReplaceAll_single_not_mem (by decide) _
  · rw [e]
    exact goReplaceAll_single_not_mem (by decide) _

/-- C9: on a document that is already fully resolved (it contains no
`{{` action marker), preprocessing is the identity and running the
conditional-evaluation and substitution pass over the preprocessed
document returns the document unchanged. -/
theorem render_pipeline_noop_c9 (doc : List Char) (data : TemplateData)
    (h : goIndex openTok doc = none) :
    preprocessTemplate doc = doc ∧
      renderTemplate (preprocessTemplate doc) data = doc := by
  have hp := preprocessTemplate_of_no_open h
  exact ⟨hp, by rw [hp]; exact renderTemplate_of_no_open h⟩

/-- A concrete `TemplateData` used by witnesses. -/
def sampleData : TemplateData :=
  { Code := 404
    Message := "m".data
    Description := "d".data
    ShowDetails := true
    Host := "h".data
    OriginalURI := "/u".data
    ForwardedFor := "f".data
    RequestID := "r".data
    NowUnix := 5
    L10nEnabled := false
    L10nScript := "s".data }

/-- C9 witness: the no-op theorem at a concrete directive-free document. -/
theorem render_pipeline_noop_c9_witness :
    goIndex openTok "<p>hello</p>\n<b>ok</b>".data = none ∧
      (preprocessTemplate "<p>hello</p>\n<b>ok</b>".data = "<p>hello</p>\n<b>ok</b>".data ∧
        renderTemplate (preprocessTemplate "<p>hello</p>\n<b>ok</b>".data) sampleData =
          "<p>hello</p>\n<b>ok</b>".data) :=
  ⟨by decide, render_pipeline_noop_c9 _ sampleData (by decide)⟩

end ErrPages

namespace ErrPages

/-- C7: `preprocessTemplate` rewrites a line only when the line's entire
trimmed content is a single comment-wrapped span (`<!-- -->`, `/* */` or
`//`) whose inner text consists solely of control-keyword `{{ ... }}`
actions; a line mixing a directive with literal visible text, or one whose
comment wraps a value-producing action such as `// {{ l10nScript }}`, is
returned unchanged (while a pure directive comment is unwrapped). -/
theorem preprocess_only_directives_c7 :
    (∀ line : List Char,
        processLine line = line ∨
          (List.isPrefixOf htmlOpen (goTrimSpace line) &&
              List.isSuffixOf htmlClose (goTrimSpace line) &&
              containsOnlyDirectives (innerHtml (goTrimSpace line))) = true ∨
          (List.isPrefixOf cssOpen (goTrimSpace line) &&
              List.isSuffixOf cssClose (goTrimSpace line) &&
              containsOnlyDirectives (innerCss (goTrimSpace line))) = true ∨
          (List.isPrefixOf jsMark (goTrimSpace line) &&
              !List.isPrefixOf jsMark3 (goTrimSpace line) &&
              containsOnlyDirectives (innerJs (goTrimSpace line))) = true) ∧
      processLine "// {{ l10nScript }}".data = "// {{ l10nScript }}".data ∧
      processLine "<!-- {{ if show_details }} text -->".data =
        "<!-- {{ if show_details }} text -->".data ∧
      processLine "<!-- {{ if show_details }} -->".data = "{{- if show_details -}}".data ∧
      processLine "/* {{ end }} */".data = "{{- end -}}".data := by
  refine ⟨?_, by decide, by decide, by decide, by decide⟩
  intro line
  by_cases hh : (List.isPrefixOf htmlOpen (goTrimSpace line) &&
      List.isSuffixOf htmlClose (goTrimSpace line) &&
      containsOnlyDirectives (innerHtml (goTrimSpace line))) = true
  · exact Or.inr (Or.inl hh)
  · by_cases hc : (List.isPrefixOf cssOpen (goTrimSpace line) &&
        List.isSuffixOf cssClose (goTrimSpace line) &&
        containsOnlyDirectives (innerCss (goTrimSpace line))) = true
    · exact Or.inr (Or.inr (Or.inl hc))
    · by_cases hj : (List.isPrefixOf jsMark (goTrimSpace line) &&
          !List.isPrefixOf jsMark3 (goTrimSpace line) &&
          containsOnlyDirectives (innerJs (goTrimSpace line))) = true
      · exact Or.inr (Or.inr (Or.inr hj))
      · refine Or.inl ?_
        rw [Bool.not_eq_true] at hh hc hj
        simp [processLine, hh, hc, hj]

/-- C3: the auto-refresh flag of `processConditionals` holds exactly for
codes in the fixed set {408, 425, 429, 500, 502, 503, 504}, and
`processComplexRefreshConditional` keeps the enclosed block (markers
stripped) when it holds while removing the whole block otherwise; hence,
on a template whose marker pair encloses `mid`, the block is in the output
iff the code is in the set — for every other code, 599 included, it is
absent. -/
theorem autoRefresh_iff_c3 (code : Int) (pre mid post : List Char)
    (h1 : goIndex refreshStart (pre ++ refreshStart ++ mid ++ refreshEnd ++ post) =
      some pre.length)
    (h2 : goIndex refreshEnd
        ((pre ++ refreshStart ++ mid ++ refreshEnd ++ post).drop pre.length) =
      some (refreshStart.length + mid.length)) :
    processComplexRefreshConditional (pre ++ refreshStart ++ mid ++ refreshEnd ++ post)
        (shouldAutoRefresh code) =
      if code ∈ ([408, 425, 429, 500, 502, 503, 504] : List Int) then pre ++ mid ++ post
      else pre ++ post := by
  have hA : (pre ++ refreshStart ++ mid ++ refreshEnd ++ post).take pre.length = pre := by
    rw [List.append_assoc, List.append_assoc, List.append_assoc]
    exact List.take_left _ _
  have hC : (pre ++ refreshStart ++ mid ++ refreshEnd ++ post).drop
      (refreshStart.length + mid.length + pre.length + refreshEnd.length) = post := by
    have he : pre ++ refreshStart ++ mid ++ refreshEnd ++ post =
        (pre ++ refreshStart ++ mid ++ refreshEnd) ++ post := rfl
    rw [he, show refreshStart.length + mid.length + pre.length + refreshEnd.length =
      (pre ++ refreshStart ++ mid ++ refreshEnd).length from by
        simp [List.length_append]
        omega]
    exact List.drop_left _ _
  have hB : goSlice (pre ++ refreshStart ++ mid ++ refreshEnd ++ post)
      (pre.length + refreshStart.length) (refreshStart.length + mid.length + pre.length) =
      mid := by
    unfold goSlice
    have he : pre ++ refreshStart ++ mid ++ refreshEnd ++ post =
        (pre ++ refreshStart) ++ (mid ++ (refreshEnd ++ post)) := by
      simp [List.append_assoc]
    rw [he, show pre.length + refreshStart.length = (pre ++ refreshStart).length from
      (List.length_append _ _).symm, List.drop_left,
      show refreshStart.length + mid.length + pre.length - (pre ++ refreshStart).length =
        mid.length from by simp [List.length_append]; omega]
    exact List.take_left _ _
  unfold processComplexRefreshConditional
  simp only [h1]
  simp only [h2]
  by_cases hm : code ∈ ([408, 425, 429, 500, 502, 503, 504] : List Int)
  · have hs : shouldAutoRefresh code = true := by
      simp only [List.mem_cons, List.not_mem_nil, or_false] at hm
      rcases hm with rfl | rfl | rfl | rfl | rfl | rfl | rfl <;> rfl
    rw [hs, if_pos hm, hA, hB, hC]
    simp
  · have hs : shouldAutoRefresh code = false := by
      simp only [List.mem_cons, List.not_mem_nil, or_false, not_or] at hm
      simp [shouldAutoRefresh, hm.1, hm.2.1, hm.2.2.1, hm.2.2.2.1, hm.2.2.2.2.1,
        hm.2.2.2.2.2.1, hm.2.2.2.2.2.2]
    rw [hs, if_neg hm, hA, hC]
    simp

set_option maxRecDepth 40000 in
/-- C3 witness: the theorem at the concrete template `"A" ++ marker-pair
around "B" ++ "C"` and the concrete code 503. -/
theorem autoRefresh_iff_c3_witness :
    goIndex refreshStart ("A".data ++ refreshStart ++ "B".data ++ refreshEnd ++ "C".data) =
        some "A".data.length ∧
      goIndex refreshEnd
          (("A".data ++ refreshStart ++ "B".data ++ refreshEnd ++ "C".data).drop
            "A".data.length) =
        some (refreshStart.length + "B".data.length) ∧
      processComplexRefreshConditional
          ("A".data ++ refreshStart ++ "B".data ++ refreshEnd ++ "C".data)
          (shouldAutoRefresh 503) =
        if (503 : Int) ∈ ([408, 425, 429, 500, 502, 503, 504] : List Int) then
          "A".data ++ "B".data ++ "C".data
        else "A".data ++ "C".data :=
  ⟨by decide, by decide,
    autoRefresh_iff_c3 503 "A".data "B".data "C".data (by decide) (by decide)⟩

set_option maxRecDepth 10000 in
/-- C6: `getStatusMessage` returns each explicit table entry exactly and
falls back to "Client Error" for unlisted codes in [400, 500) and to
"Server Error" otherwise; `getStatusDescription` returns each of its
explicit entries exactly and falls back to the generic 4xx sentence on
unlisted codes in [400, 500) and to the generic server sentence
otherwise. -/
theorem statusCatalog_c6 :
    (∀ (c : Int) (m : List Char), (c, m) ∈ messagesList → getStatusMessage c = m) ∧
      (∀ c : Int, c ∉ messagesList.map Prod.fst →
        (400 ≤ c ∧ c < 500 → getStatusMessage c = "Client Error".data) ∧
          (¬(400 ≤ c ∧ c < 500) → getStatusMessage c = "Server Error".data)) ∧
      (∀ (c : Int) (d : List Char), (c, d) ∈ descriptionsList → getStatusDescription c = d) ∧
      (∀ c : Int, c ∉ descriptionsList.map Prod.fst →
        (400 ≤ c ∧ c < 500 →
            getStatusDescription c = "An error occurred while processing your request.".data) ∧
          (¬(400 ≤ c ∧ c < 500) →
            getStatusDescription c =
              "The server encountered an error while processing your request.".data)) := by
  refine ⟨?_, ?_, ?_, ?_⟩
  · intro c m h
    fin_cases h <;> rfl
  · intro c hc
    have hf : messagesList.find? (fun p => p.1 == c) = none := by
      rw [List.find?_eq_none]
      intro x hx
      simp only [beq_iff_eq]
      intro he
      exact hc (he ▸ List.mem_map_of_mem Prod.fst hx)
    constructor
    · intro hcl
      simp [getStatusMessage, hf, hcl]
    · intro hcl
      simp [getStatusMessage, hf, hcl]
  · intro c d h
    fin_cases h <;> rfl
  · intro c hc
    have hf : descriptionsList.find? (fun p => p.1 == c) = none := by
      rw [List.find?_eq_none]
      intro x hx
      simp only [beq_iff_eq]
      intro he
      exact hc (he ▸ List.mem_map_of_mem Prod.fst hx)
    constructor
    · intro hcl
      simp [getStatusDescription, hf, hcl]
    · intro hcl
      simp [getStatusDescription, hf, hcl]

/-- C6 witness: the catalog theorem at concrete codes 404, 451, 599, 402. -/
theorem statusCatalog_c6_witness :
    getStatusMessage 404 = "Not Found".data ∧
      getStatusMessage 599 = "Server Error".data ∧
      getStatusMessage 451 = "Unavailable For Legal Reasons".data ∧
      getStatusDescription 404 = "The requested resource could not be found.".data ∧
      getStatusDescription 402 = "An error occurred while processing your request.".data :=
  ⟨statusCatalog_c6.1 404 "Not Found".data (by decide),
    (statusCatalog_c6.2.1 599 (by decide)).2 (by decide),
    statusCatalog_c6.1 451 "Unavailable For Legal Reasons".data (by decide),
    statusCatalog_c6.2.2.1 404 "The requested resource could not be found.".data (by decide),
    (statusCatalog_c6.2.2.2 402 (by decide)).1 (by decide)⟩

end ErrPages

namespace ErrPages

theorem foldl_theme_preserved (lines : List (List Char)) :
    ∀ cfg : Config,
      (∀ l ∈ lines, List.isPrefixOf themeKey (goTrimSpace l) = false) →
      (lines.foldl parseConfigLine cfg).Theme = cfg.Theme := by
  induction lines with
  | nil => intro cfg _; rfl
  | cons l rest ih =>
    intro cfg h
    rw [List.foldl_cons, ih _ (fun x hx => h x (List.mem_cons_of_mem _ hx))]
    have hb := h l (List.mem_cons_self _ _)
    have hl : ¬ themeKey <+: goTrimSpace l := by
      intro hp
      have h2 : themeKey.isPrefixOf (goTrimSpace l) = true :=
        List.isPrefixOf_iff_prefix.mpr hp
      rw [hb] at h2
      exact absurd h2 (by decide)
    by_cases hskip : (['#'] <+: goTrimSpace l ∨ goTrimSpace l = [])
    · simp [parseConfigLine, hskip]
    · by_cases hsd : showDetailsKey <+: goTrimSpace l
      · simp [parseConfigLine, hskip, hsd, hl]
      · simp [parseConfigLine, hskip, hsd, hl]

theorem foldl_showDetails_preserved (lines : List (List Char)) :
    ∀ cfg : Config,
      (∀ l ∈ lines, List.isPrefixOf showDetailsKey (goTrimSpace l) = false) →
      (lines.foldl parseConfigLine cfg).ShowDetails = cfg.ShowDetails := by
  induction lines with
  | nil => intro cfg _; rfl
  | cons l rest ih =>
    intro cfg h
    rw [List.foldl_cons, ih _ (fun x hx => h x (List.mem_cons_of_mem _ hx))]
    have hb := h l (List.mem_cons_self _ _)
    have hl : ¬ showDetailsKey <+: goTrimSpace l := by
      intro hp
      have h2 : showDetailsKey.isPrefixOf (goTrimSpace l) = true :=
        List.isPrefixOf_iff_prefix.mpr hp
      rw [hb] at h2
      exact absurd h2 (by decide)
    by_cases hskip : (['#'] <+: goTrimSpace l ∨ goTrimSpace l = [])
    · simp [parseConfigLine, hskip]
    · by_cases hth : themeKey <+: goTrimSpace l
      · simp [parseConfigLine, hskip, hth, hl]
      · simp [parseConfigLine, hskip, hth, hl]

/-- C10: `config.Parse` always returns a configuration and a nil error;
`Theme` defaults to `"cats"` and `ShowDetails` to `true` when no line
carries the key; on a `show_details:` line the flag becomes true exactly
when the trimmed value is the exact lowercase string `"true"` — `"True"`,
`"yes"` and `"1"` all yield false. -/
theorem parse_c10 :
    (∀ input : List Char, (Parse input).2 = none) ∧
      (∀ input : List Char,
        (∀ l ∈ goSplit '\n' input, List.isPrefixOf themeKey (goTrimSpace l) = false) →
        (Parse input).1.Theme = "cats".data) ∧
      (∀ input : List Char,
        (∀ l ∈ goSplit '\n' input, List.isPrefixOf showDetailsKey (goTrimSpace l) = false) →
        (Parse input).1.ShowDetails = true) ∧
      (∀ v : List Char, '\n' ∉ v →
        goTrimSpace (showDetailsKey ++ v) = showDetailsKey ++ v →
        (Parse (showDetailsKey ++ v)).1.ShowDetails = (goTrimSpace v == "true".data)) ∧
      (Parse "show_details: True".data).1.ShowDetails = false ∧
      (Parse "show_details: yes".data).1.ShowDetails = false ∧
      (Parse "show_details: 1".data).1.ShowDetails = false ∧
      (Parse "show_details: true".data).1.ShowDetails = true := by
  refine ⟨fun _ => rfl, ?_, ?_, ?_, by decide, by decide, by decide, by decide⟩
  · intro input h
    exact foldl_theme_preserved (goSplit '\n' input) _ h
  · intro input h
    exact foldl_showDetails_preserved (goSplit '\n' input) _ h
  · intro v hnl h2
    have hmem : '\n' ∉ showDetailsKey ++ v := by
      rw [List.mem_append]
      rintro (h | h)
      · exact absurd h (by decide)
      · exact hnl h
    have hsplit : goSplit '\n' (showDetailsKey ++ v) = [showDetailsKey ++ v] :=
      goSplit_of_not_mem hmem
    have e1 : List.isPrefixOf "#".data (showDetailsKey ++ v) = false := rfl
    have e2 : ((showDetailsKey ++ v) == []) = false := rfl
    have e3 : List.isPrefixOf themeKey (showDetailsKey ++ v) = false := rfl
    have e4 : List.isPrefixOf showDetailsKey (showDetailsKey ++ v) = true :=
      List.isPrefixOf_iff_prefix.mpr (List.prefix_append _ _)
    have e5 : goDropStart showDetailsKey (showDetailsKey ++ v) = v := by
      unfold goDropStart
      rw [e4]
      simp only [if_true]
      exact List.drop_left _ _
    simp only [Parse, hsplit, List.foldl_cons, List.foldl_nil, parseConfigLine]
    rw [h2]
    simp [e1, e2, e3, e4, e5]

/-- C10 witness: the parse theorem at concrete inputs. -/
theorem parse_c10_witness :
    (Parse "abc\n# theme: z".data).2 = none ∧
      (∀ l ∈ goSplit '\n' "abc\n# theme: z".data,
        List.isPrefixOf themeKey (goTrimSpace l) = false) ∧
      (Parse "abc\n# theme: z".data).1.Theme = "cats".data ∧
      '\n' ∉ " maybe".data ∧
      goTrimSpace (showDetailsKey ++ " maybe".data) = showDetailsKey ++ " maybe".data ∧
      (Parse (showDetailsKey ++ " maybe".data)).1.ShowDetails =
        (goTrimSpace " maybe".data == "true".data) :=
  ⟨parse_c10.1 _, by decide, parse_c10.2.1 "abc\n# theme: z".data (by decide),
    by decide, by decide, parse_c10.2.2.2.1 " maybe".data (by decide) (by decide)⟩

end ErrPages

namespace ErrPages

/-- A concrete intercepting request context. -/
def ctxIntercept : HttpCtx :=
  { shouldReplaceBody := true
    statusCode := "500".data
    host := "example.com".data
    originalURI := "/x".data
    forwardedFor := []
    requestID := [] }

/-- A concrete pass-through request context. -/
def ctxPass : HttpCtx :=
  { shouldReplaceBody := false
    statusCode := []
    host := []
    originalURI := []
    forwardedFor := []
    requestID := [] }

/-- C1: for an intercepted response (`shouldReplaceBody` true, set when the
response headers classified as 4xx/5xx), `OnHttpResponseBody` returns the
Pause action on every body chunk that is not end of stream, and on the
end-of-stream chunk returns Continue exactly once, handing the rendered
error page to the body replacement; for a pass-through response
(`shouldReplaceBody` false) every chunk returns Continue and the body is
never replaced. -/
theorem onHttpResponseBody_stream_c1 (sd : Bool) (tmpl : List Char) (now : Int)
    (ctx : HttpCtx) (sizes : List Nat) (lastSize : Nat) :
    (ctx.shouldReplaceBody = true →
      sizes.map (fun sz => OnHttpResponseBody sd tmpl now ctx sz false) =
          sizes.map (fun _ => (Action.Pause, (none : Option (List Char)))) ∧
        OnHttpResponseBody sd tmpl now ctx lastSize true =
          (Action.Continue,
            some (RenderErrorPage tmpl now (bodyTemplateData sd ctx)))) ∧
      (ctx.shouldReplaceBody = false →
        ∀ (sz : Nat) (eos : Bool),
          OnHttpResponseBody sd tmpl now ctx sz eos = (Action.Continue, none)) := by
  constructor
  · intro h
    constructor
    · simp [OnHttpResponseBody, h]
    · simp [OnHttpResponseBody, h]
  · intro h sz eos
    simp [OnHttpResponseBody, h]

/-- C1 witness: the streaming theorem on a concrete three-chunk intercepted
response and a concrete pass-through chunk. -/
theorem onHttpResponseBody_stream_c1_witness :
    ([3, 5].map (fun sz => OnHttpResponseBody true "X".data 7 ctxIntercept sz false) =
        [3, 5].map (fun _ => (Action.Pause, (none : Option (List Char)))) ∧
      OnHttpResponseBody true "X".data 7 ctxIntercept 2 true =
        (Action.Continue,
          some (RenderErrorPage "X".data 7 (bodyTemplateData true ctxIntercept)))) ∧
      OnHttpResponseBody true "X".data 7 ctxPass 3 false = (Action.Continue, none) :=
  ⟨(onHttpResponseBody_stream_c1 true "X".data 7 ctxIntercept [3, 5] 2).1 rfl,
    (onHttpResponseBody_stream_c1 true "X".data 7 ctxPass [] 0).2 rfl 3 false⟩

/-- The `TemplateData` of the C8 counterexample: its `Message` field itself
contains a placeholder token. -/
def cexData : TemplateData :=
  { Code := 404
    Message := "{{ code }}".data
    Description := "D".data
    ShowDetails := false
    Host := []
    OriginalURI := []
    ForwardedFor := []
    RequestID := []
    NowUnix := 5
    L10nEnabled := false
    L10nScript := [] }

/-- A second legal iteration order of the replacement map: the first two
entries swapped. -/
def swapTwo (l : List (List Char × List Char)) : List (List Char × List Char) :=
  match l with
  | a :: b :: t => b :: a :: t
  | l => l

/-- C8 counterexample: `renderTemplate` iterates a Go map, whose order is
unspecified; on equal field-by-field data with `NowUnix ≠ 0`, two legal
iteration orders of the same replacement map yield different bytes when a
field value contains a placeholder token, so two calls to
`RenderErrorPage` need not return identical byte sequences. -/
theorem render_determinism_c8_counterexample :
    cexData.NowUnix ≠ 0 ∧
      (swapTwo (replacements cexData)).Perm (replacements cexData) ∧
      RenderErrorPageWith id "{{ message }}".data 9 cexData ≠
        RenderErrorPageWith swapTwo "{{ message }}".data 9 cexData := by
  refine ⟨by decide, ?_, by decide⟩
  exact List.Perm.swap _ _ _

/-- C8 (amended): for any one fixed iteration order of the replacement map,
rendering is deterministic given an explicit timestamp: whenever
`NowUnix ≠ 0` the result does not depend on the ambient clock, so two such
calls on field-by-field equal data under the same order return identical
bytes; across different map-iteration orders the bytes can differ (see the
counterexample). -/
theorem render_deterministic_c8
    (reorder : List (List Char × List Char) → List (List Char × List Char))
    (tmpl : List Char) (data : TemplateData) (now₁ now₂ : Int)
    (h : data.NowUnix ≠ 0) :
    RenderErrorPageWith reorder tmpl now₁ data =
      RenderErrorPageWith reorder tmpl now₂ data := by
  have hb : (data.NowUnix == 0) = false := by simpa using h
  simp [RenderErrorPageWith, hb]

/-- C8 witness: the amended determinism theorem at concrete data and two
distinct clock values. -/
theorem render_deterministic_c8_witness :
    sampleData.NowUnix ≠ 0 ∧
      RenderErrorPageWith id "{{ message }}".data 1 sampleData =
        RenderErrorPageWith id "{{ message }}".data 2 sampleData :=
  ⟨by decide, render_deterministic_c8 id "{{ message }}".data sampleData 1 2 (by decide)⟩

end ErrPages
